import Mathlib

/-!
Verification of the sectioning and citation-linking core of the
policy-dispute-ai-assistant repository.

The Python sources `src/sectioning.py` and `src/citation_linking.py` are
shallowly embedded here.  Python `dict`s (insertion-ordered, unique keys)
are modelled as association lists `List (String × String)`; `None` as
`Option.none`; Python strings as Lean `String` (a list of unicode code
points, matching Python's code-point view of `str`).  `str.upper` /
`str.lower`-sensitive operations are modelled at ASCII precision, which is
exact for every character class the embedded regexes use (`[a-z]`, `[A-Z]`,
`[IVX]` with `re.IGNORECASE`).
-/

namespace PolicyDispute

/-- Python whitespace (the `\s` class / `str.strip` set) at ASCII precision:
space, tab, newline, carriage return, vertical tab, form feed. -/
def isPySpace (c : Char) : Bool :=
  c = ' ' || c = '\t' || c = '\n' || c = '\r' || c = Char.ofNat 11 || c = Char.ofNat 12

/-- ASCII lowercase letter, the `[a-z]` regex class. -/
def isLowerAZ (c : Char) : Bool :=
  97 ≤ c.toNat && c.toNat ≤ 122

/-- ASCII uppercase letter, the `[A-Z]` regex class. -/
def isUpperAZ (c : Char) : Bool :=
  65 ≤ c.toNat && c.toNat ≤ 90

/-- ASCII digit, the `[0-9]` regex class. -/
def isDigit09 (c : Char) : Bool :=
  48 ≤ c.toNat && c.toNat ≤ 57

/-- ASCII letter (either case), the `[A-Z]` class under `re.IGNORECASE`. -/
def isAlphaAZ (c : Char) : Bool :=
  isUpperAZ c || isLowerAZ c

/-- Roman-numeral letter, the `[IVX]` class under `re.IGNORECASE`. -/
def isRomanCI (c : Char) : Bool :=
  c = 'I' || c = 'V' || c = 'X' || c = 'i' || c = 'v' || c = 'x'

/-- The `[-–—:]` separator class used by `SECTION_RE` / `COVERAGE_RE`. -/
def isDashColon (c : Char) : Bool :=
  c = '-' || c = '–' || c = '—' || c = ':'

/-- The `[-–—]` separator class used by the citation-side `SECTION` regex. -/
def isDashOnly (c : Char) : Bool :=
  c = '-' || c = '–' || c = '—'

/-- Python `str.upper` on one character, at ASCII precision. -/
def pyUpperChar (c : Char) : Char :=
  if isLowerAZ c then Char.ofNat (c.toNat - 32) else c

/-- Python `str.upper`, at ASCII precision. -/
def pyUpper (s : String) : String :=
  String.mk (s.toList.map pyUpperChar)

/-- Python `str.strip()` on a character list. -/
def pyStripList (cs : List Char) : List Char :=
  ((cs.dropWhile isPySpace).reverse.dropWhile isPySpace).reverse

/-- Python `str.strip()`. -/
def pyStrip (s : String) : String :=
  String.mk (pyStripList s.toList)

/-- Replace every maximal run of whitespace by a single space:
`re.sub(r"\s+", " ", ·)`.  The flag records whether the previous
character was part of a whitespace run. -/
def collapseRunsAux : Bool → List Char → List Char
  | _, [] => []
  | prevWs, c :: cs =>
    if isPySpace c then
      if prevWs then collapseRunsAux true cs
      else ' ' :: collapseRunsAux true cs
    else c :: collapseRunsAux false cs

/-- Python `re.sub(r"\s+", " ", s)`. -/
def collapseRuns (s : String) : String :=
  String.mk (collapseRunsAux false s.toList)

/-- Model of `_collapse_ws` from `sectioning.py`: `re.sub(r"\s+", " ", text.strip())`. -/
def collapseWs (s : String) : String :=
  collapseRuns (pyStrip s)

/-- Normalise `–` and `—` to `-` (`str.replace` twice). -/
def dashToHyphen (s : String) : String :=
  String.mk (s.toList.map (fun c => if c = '–' || c = '—' then '-' else c))

/-- Model of `_normalize_key` from `citation_linking.py`: empty guard, dash
normalisation, whitespace collapse + strip, uppercase. -/
def normalizeKey (text : String) : String :=
  if text = "" then ""
  else pyUpper (pyStrip (collapseRuns (dashToHyphen text)))

/-- Model of `_canonical_key` from `sectioning.py`: collapse+strip, dash
normalisation, uppercase. -/
def canonicalKey (raw : String) : String :=
  pyUpper (dashToHyphen (collapseWs raw))

/-- Python `needle in hay` on strings, over character lists. -/
def listContainsSub (needle : List Char) : List Char → Bool
  | [] => needle.isEmpty
  | c :: t => needle.isPrefixOf (c :: t) || listContainsSub needle t

/-- Python `needle in hay` on strings. -/
def strContains (hay needle : String) : Bool :=
  listContainsSub needle.toList hay.toList

/-- Python `hay.startswith(pre)`. -/
def strStartsWith (hay pre : String) : Bool :=
  pre.toList.isPrefixOf hay.toList

/-- Case-insensitive literal prefix match (the target is given uppercase),
modelling a literal under `re.IGNORECASE` at ASCII precision. -/
def startsWithCI : List Char → List Char → Bool
  | [], _ => true
  | _ :: _, [] => false
  | t :: ts, c :: cs => (pyUpperChar c = t) && startsWithCI ts cs

/-- Python `str.splitlines()`: split on `\n`, `\r`, `\r\n`, `\v`, `\f`;
a trailing break emits no extra empty line. -/
def splitlinesAux : List Char → List Char → List String
  | acc, [] => if acc.isEmpty then [] else [String.mk acc.reverse]
  | acc, '\r' :: '\n' :: rest => String.mk acc.reverse :: splitlinesAux [] rest
  | acc, c :: rest =>
    if c = '\n' || c = '\r' || c = Char.ofNat 11 || c = Char.ofNat 12 then
      String.mk acc.reverse :: splitlinesAux [] rest
    else
      splitlinesAux (c :: acc) rest

/-- Python `str.splitlines()`. -/
def pySplitlines (s : String) : List String :=
  splitlinesAux [] s.toList

/-- Python `"\n".join(lines)`. -/
def joinNL : List String → String
  | [] => ""
  | [s] => s
  | s :: rest => s ++ "\n" ++ joinNL rest

/-- Python `len(s.split())`: number of maximal non-whitespace runs. -/
def countWordsAux : Bool → List Char → Nat
  | _, [] => 0
  | inWord, c :: cs =>
    if isPySpace c then countWordsAux false cs
    else (if inWord then 0 else 1) + countWordsAux true cs

/-- Python `len(s.split())`. -/
def countWords (s : String) : Nat :=
  countWordsAux false s.toList

example : normalizeKey "  COVERAGE A – DWELLING  " = "COVERAGE A - DWELLING" := by decide
example : pySplitlines "a\nb\n" = ["a", "b"] := by decide
example : pySplitlines "\n" = [""] := by decide
example : countWords "  HELLO  WORLD " = 2 := by decide
example : strContains "ABCD" "BC" = true ∧ strContains "ABCD" "CB" = false := by decide

/-! ## Regex matchers

`SECTION_RE = ^SECTION\s+([IVX]+)\s*[-–—:]?\s*(.*)$` and
`COVERAGE_RE = ^COVERAGE\s+([A-Z])\s*[-–—:]?\s*(.*)$` (both `IGNORECASE`,
used with `re.match`).  Because the final `(.*)` matches any remainder and
the classes `\s`, `[IVX]`, `[A-Z]`, `[-–—:]` that precede it are consumed
greedily against a continuation that always succeeds, leftmost-greedy
matching coincides with maximal munch, so these two are implemented by
`takeWhile`/`dropWhile` without backtracking.

The citation-side pattern `^SECTION\s+[IVX]+\s*[-–—]?\s*(.+)$` ends in
`(.+)`, which can fail on an empty remainder, so its implementation uses
explicit backtracking combinators (`starBt`, `optBt`).
-/

/-- Greedy `p*` with backtracking: consume while the continuation `k`
can still succeed on the remainder, preferring longer matches. -/
def starBt (p : Char → Bool) (k : List Char → Option String) : List Char → Option String
  | [] => k []
  | c :: rest =>
    if p c then
      match starBt p k rest with
      | some r => some r
      | none => k (c :: rest)
    else k (c :: rest)

/-- Greedy `p?` with backtracking: prefer consuming one `p` character. -/
def optBt (p : Char → Bool) (k : List Char → Option String) : List Char → Option String
  | [] => k []
  | c :: rest =>
    if p c then
      match k rest with
      | some r => some r
      | none => k (c :: rest)
    else k (c :: rest)

/-- The final `(.+)$` group: the (non-empty) remainder. -/
def restGroupPlus (cs : List Char) : Option String :=
  if cs.isEmpty then none else some (String.mk cs)

/-- Model of `re.match(r"^SECTION\s+[IVX]+\s*[-–—]?\s*(.+)$", s, re.IGNORECASE)`,
returning group 1 (`(.+)`), from `find_section_for_citation` step 4. -/
def sectionCitationRest (s : String) : Option String :=
  let cs := s.toList
  if startsWithCI ['S', 'E', 'C', 'T', 'I', 'O', 'N'] cs then
    match cs.drop 7 with
    | [] => none
    | c :: rest =>
      if isPySpace c then
        starBt isPySpace
          (fun cs2 =>
            match cs2 with
            | [] => none
            | d :: rest2 =>
              if isRomanCI d then
                starBt isRomanCI
                  (starBt isPySpace (optBt isDashOnly (starBt isPySpace restGroupPlus)))
                  rest2
              else none)
          rest
      else none
  else none

/-- Model of `SECTION_RE.match s`, returning `(group 1, group 2)` on success. -/
def sectionGroups (s : String) : Option (String × String) :=
  let cs := s.toList
  if startsWithCI ['S', 'E', 'C', 'T', 'I', 'O', 'N'] cs then
    let r1 := cs.drop 7
    let ws := r1.takeWhile isPySpace
    if ws.isEmpty then none
    else
      let r2 := r1.dropWhile isPySpace
      let rom := r2.takeWhile isRomanCI
      if rom.isEmpty then none
      else
        let r3 := (r2.dropWhile isRomanCI).dropWhile isPySpace
        let r4 :=
          match r3 with
          | c :: rest => if isDashColon c then rest else r3
          | [] => r3
        some (String.mk rom, String.mk (r4.dropWhile isPySpace))
  else none

/-- Model of `COVERAGE_RE.match s`, returning `(group 1, group 2)` on success. -/
def coverageGroups (s : String) : Option (String × String) :=
  let cs := s.toList
  if startsWithCI ['C', 'O', 'V', 'E', 'R', 'A', 'G', 'E'] cs then
    let r1 := cs.drop 8
    let ws := r1.takeWhile isPySpace
    if ws.isEmpty then none
    else
      match r1.dropWhile isPySpace with
      | [] => none
      | c :: rest =>
        if isAlphaAZ c then
          let r3 := rest.dropWhile isPySpace
          let r4 :=
            match r3 with
            | d :: rest2 => if isDashColon d then rest2 else r3
            | [] => r3
          some (String.mk [c], String.mk (r4.dropWhile isPySpace))
        else none
  else none

example : sectionGroups "SECTION I - EXCLUSIONS" = some ("I", "EXCLUSIONS") := by decide
example : sectionGroups "Section iv: Conditions" = some ("iv", "Conditions") := by decide
example : sectionGroups "SECTIONI" = none := by decide
example : coverageGroups "COVERAGE A - DWELLING" = some ("A", "DWELLING") := by decide
example : coverageGroups "Coverage b" = some ("b", "") := by decide
example : sectionCitationRest "SECTION I - EXCLUSIONS" = some "EXCLUSIONS" := by decide
example : sectionCitationRest "SECTION IV" = some "V" := by decide
example : sectionCitationRest "SECTION I" = none := by decide
example : sectionCitationRest "SECTION I -" = some "-" := by decide

/-- The `ALL_CAPS_HEADING_RE` tail class `[A-Z0-9\s,&()'/\-]`. -/
def isHeadTail (c : Char) : Bool :=
  isUpperAZ c || isDigit09 c || isPySpace c ||
    c = ',' || c = '&' || c = '(' || c = ')' || c = Char.ofNat 39 || c = '/' || c = '-'

/-- Model of `ALL_CAPS_HEADING_RE.match s` as a boolean:
`^[^a-z]*[A-Z][A-Z0-9\s,&()'/\-]*$`.  The match succeeds iff the string
splits as (non-lowercase chars) ++ (one uppercase char) ++ (tail-class
chars); the recursion tries every split, which is exactly what the
backtracking `[^a-z]*` does. -/
def allCapsHeading : List Char → Bool
  | [] => false
  | c :: cs => (isUpperAZ c && cs.all isHeadTail) || (!isLowerAZ c && allCapsHeading cs)

example : allCapsHeading "EXCLUSIONS".toList = true := by decide
example : allCapsHeading "12 DEDUCTIBLE".toList = true := by decide
example : allCapsHeading "EXCLUSIONS:".toList = false := by decide
example : allCapsHeading "exclusions".toList = false := by decide

/-! ## Heading normalisation and classification (`sectioning.py`) -/

/-- First-match association lookup (Python `dict` lookup; the model's
builders keep keys unique, so first match is the only match). -/
def assocLookup (l : List (String × String)) (k : String) : Option String :=
  (l.find? (fun p => p.1 = k)).map Prod.snd

/-- Python `d[k]` for a key known to be present (defaults to `""` otherwise). -/
def assocLookupD (l : List (String × String)) (k : String) : String :=
  (assocLookup l k).getD ""

/-- Python `d[k] = v` on an insertion-ordered dict: overwrite in place if
the key exists, otherwise append. -/
def dictInsert : List (String × String) → String → String → List (String × String)
  | [], k, v => [(k, v)]
  | (k', v') :: rest, k, v =>
    if k' = k then (k', v) :: rest
    else (k', v') :: dictInsert rest k v

/-- The alias table `HO3_HEADING_ALIASES`. -/
def ho3HeadingAliases : List (String × String) :=
  [("DEFINITIONS", "DEFINITIONS"),
   ("DEFINITIONS USED IN THIS POLICY", "DEFINITIONS"),
   ("DEFINITIONS USED IN THIS POLICY SECTION I AND SECTION II", "DEFINITIONS"),
   ("SECTION I - EXCLUSIONS", "EXCLUSIONS"),
   ("SECTION I EXCLUSIONS", "EXCLUSIONS"),
   ("EXCLUSIONS", "EXCLUSIONS"),
   ("SECTION I - CONDITIONS", "CONDITIONS"),
   ("SECTION I CONDITIONS", "CONDITIONS"),
   ("CONDITIONS", "CONDITIONS"),
   ("COVERAGE A - DWELLING", "COVERAGE A - DWELLING"),
   ("COVERAGE B - OTHER STRUCTURES", "COVERAGE B - OTHER STRUCTURES"),
   ("COVERAGE C - PERSONAL PROPERTY", "COVERAGE C - PERSONAL PROPERTY"),
   ("COVERAGE D - LOSS OF USE", "COVERAGE D - LOSS OF USE")]

/-- The constant `UNKNOWN_SECTION_NAME`. -/
def unknownSectionName : String := "UNKNOWN"

/-- Model of `_normalize_heading`: canonical key, alias table, `SECTION`/`COVERAGE`
pattern fallbacks, else the canonical key itself. -/
def normalizeHeading (raw : String) : String :=
  let key := canonicalKey raw
  if key = "" then unknownSectionName
  else
    match assocLookup ho3HeadingAliases key with
    | some target => target
    | none =>
      match sectionGroups key with
      | some (_, g2) =>
        let rest := pyUpper (collapseWs g2)
        if strContains rest "EXCLUSIONS" then "EXCLUSIONS"
        else if strContains rest "CONDITIONS" then "CONDITIONS"
        else if strContains rest "PROPERTY COVERAGES" then "SECTION I - PROPERTY COVERAGES"
        else key
      | none =>
        match coverageGroups key with
        | some (g1, g2) =>
          let letter := pyUpper g1
          let rest := pyUpper (collapseWs g2)
          if rest ≠ "" then "COVERAGE " ++ letter ++ " - " ++ rest
          else "COVERAGE " ++ letter
        | none => key

/-- The guard chain of `_looks_like_heading` applied to the
already-stripped line, mirroring the sequential early returns. -/
def headingGate (s : String) : Bool :=
  if s = "" then false
  else if (sectionGroups s).isSome || (coverageGroups s).isSome then true
  else if s.length < 5 then false
  else if s.length > 90 then false
  else if s.toList.any isLowerAZ then false
  else if strContains s "." then false
  else if !allCapsHeading s.toList then false
  else if countWords s > 12 then false
  else true

/-- Model of `_looks_like_heading`: strip, then the guard chain. -/
def looksLikeHeading (line : String) : Bool :=
  headingGate (pyStrip line)

example : looksLikeHeading "EXCLUSIONS" = true := by decide
example : looksLikeHeading "  Coverage a - dwelling " = true := by decide
example : looksLikeHeading "SECT" = false := by decide
example : looksLikeHeading "We do not insure." = false := by decide
example : looksLikeHeading "NO REFUNDS." = false := by decide
example : normalizeHeading "Section I — Exclusions" = "EXCLUSIONS" := by decide
example : normalizeHeading "COVERAGE C" = "COVERAGE C" := by decide
example : normalizeHeading "coverage e  extra   stuff" = "COVERAGE E - EXTRA STUFF" := by decide

/-! ## The sectioning engine (`split_into_sections`) -/

/-- Append `line` to the buffer of `key` in the insertion-ordered buffer
list (the key is always present when called from the scan). -/
def bufAppend : List (String × List String) → String → String → List (String × List String)
  | [], _, _ => []
  | (k, ls) :: rest, key, line =>
    if k = key then (k, ls ++ [line]) :: rest
    else (k, ls) :: bufAppend rest key line

/-- One step of the line scan in `split_into_sections`: a heading line
switches the current key (registering an empty buffer for a new key) and
is itself discarded; any other line is appended to the current buffer. -/
def scanStep (st : List (String × List String) × String) (line : String) :
    List (String × List String) × String :=
  if looksLikeHeading line then
    let h := normalizeHeading line
    let key := if h = "" then unknownSectionName else h
    (if (st.1.find? (fun p => p.1 = key)).isSome then st.1 else st.1 ++ [(key, [])], key)
  else
    (bufAppend st.1 st.2 line, st.2)

/-- The full line scan, starting from the `UNKNOWN` buffer. -/
def runScan (lines : List String) : List (String × List String) × String :=
  lines.foldl scanStep ([(unknownSectionName, [])], unknownSectionName)

/-- The per-key accumulation buffers of `split_into_sections`, in scan
order (order of first appearance of each canonical key). -/
def sectionBuffers (text : String) : List (String × List String) :=
  (runScan (pySplitlines text)).1

/-- Model of `split_into_sections`: scan, then join each buffer with newlines,
strip, and drop keys whose body is empty. -/
def splitIntoSections (text : String) : List (String × String) :=
  (sectionBuffers text).filterMap (fun p =>
    let body := pyStrip (joinNL p.2)
    if body = "" then none else some (p.1, body))

example :
    splitIntoSections "DECLARATIONS\nSome declarations text.\nCOVERAGE A\nDwelling text here." =
      [("DECLARATIONS", "Some declarations text."), ("COVERAGE A", "Dwelling text here.")] := by
  decide

example :
    splitIntoSections "preamble\nEXCLUSIONS\nbody one\nbody two" =
      [("UNKNOWN", "preamble"), ("EXCLUSIONS", "body one\nbody two")] := by
  decide

/-! ## Citation linking (`citation_linking.py`) -/

/-- The set `EXCLUDED_SECTIONS`. -/
def excludedSections : List String := ["UNKNOWN"]

/-- Model of `build_section_text_map`: copy every entry whose key is not excluded. -/
def buildSectionTextMap (rawSections : List (String × String)) : List (String × String) :=
  if rawSections = [] then []
  else
    rawSections.foldl
      (fun acc p => if p.1 ∈ excludedSections then acc else dictInsert acc p.1 p.2) []

/-- A successful `find_section_for_citation` result:
`{"section_name": ..., "section_text": ...}`. -/
structure SectionHit where
  sectionName : String
  sectionText : String
deriving DecidableEq, Repr

/-- The resolver's normalised lookup table: iterate the section map's
keys and store `normalized_map[_normalize_key(name)] = name`, a Python
dict insert (overwrite keeps the key's original position). -/
def buildNormalizedMap (sectionMap : List (String × String)) : List (String × String) :=
  sectionMap.foldl (fun acc p => dictInsert acc (normalizeKey p.1) p.1) []

/-- Model of `find_section_for_citation`: null/empty guards, normalisation, then
the four-rung match ladder (exact, key-starts-with-citation,
key-contains-citation, `SECTION <roman>` extraction). -/
def findSectionForCitation (citation : Option String)
    (sectionMap : List (String × String)) : Option SectionHit :=
  match citation with
  | none => none
  | some c =>
    if c = "" then none
    else if sectionMap = [] then none
    else
      let nc := normalizeKey c
      if nc = "" then none
      else
        let nm := buildNormalizedMap sectionMap
        match assocLookup nm nc with
        | some originalName => some ⟨originalName, assocLookupD sectionMap originalName⟩
        | none =>
          match nm.find? (fun p => strStartsWith p.1 nc) with
          | some p => some ⟨p.2, assocLookupD sectionMap p.2⟩
          | none =>
            match nm.find? (fun p => strContains p.1 nc) with
            | some p => some ⟨p.2, assocLookupD sectionMap p.2⟩
            | none =>
              match sectionCitationRest nc with
              | none => none
              | some g1 =>
                let extracted := pyUpper (pyStrip g1)
                if extracted = "" then none
                else
                  match nm.find? (fun p => strContains p.1 extracted || p.1 = extracted) with
                  | some p => some ⟨p.2, assocLookupD sectionMap p.2⟩
                  | none => none

example :
    findSectionForCitation (some "COVERAGE A - DWELLING")
      [("COVERAGE A - DWELLING", "We cover the dwelling..."),
       ("EXCLUSIONS", "We do not insure for loss...")] =
      some ⟨"COVERAGE A - DWELLING", "We cover the dwelling..."⟩ := by decide

example :
    findSectionForCitation (some "Coverage A")
      [("COVERAGE A - DWELLING", "d"), ("COVERAGE B - OTHER STRUCTURES", "o")] =
      some ⟨"COVERAGE A - DWELLING", "d"⟩ := by decide

example :
    findSectionForCitation (some "Section I - Exclusions")
      [("EXCLUSIONS", "We do not insure for loss..."), ("CONDITIONS", "Your duties after loss...")] =
      some ⟨"EXCLUSIONS", "We do not insure for loss..."⟩ := by decide

example :
    findSectionForCitation (some "COVERAGE Z - NONEXISTENT")
      [("COVERAGE A - DWELLING", "d")] = none := by decide

example :
    findSectionForCitation (some "  COVERAGE A - DWELLING  ")
      [("COVERAGE A - DWELLING", "d")] = some ⟨"COVERAGE A - DWELLING", "d"⟩ := by decide

/-- An Angle as consumed by `get_angle_citation_display_data`: a text and
a list of citation entries, each possibly `None`. -/
structure Angle where
  text : String
  citations : List (Option String)

/-- One linked-citation record of the display data. -/
structure LinkedCitation where
  citationText : String
  sectionName : String
  sectionText : String
deriving DecidableEq, Repr

/-- The display data returned by `get_angle_citation_display_data`. -/
structure AngleDisplay where
  angleText : String
  linkedCitations : List LinkedCitation
  unlinkedCitations : List String
deriving DecidableEq, Repr

/-- Python `str(citation).strip() if citation else ""` for one citation entry. -/
def cleanCitation : Option String → String
  | none => ""
  | some s => if s = "" then "" else pyStrip s

/-- The citation loop of `get_angle_citation_display_data`: skip empty
entries, resolve the rest, and partition hits and misses in order. -/
def angleCitationLoop (sectionMap : List (String × String)) :
    List (Option String) → List LinkedCitation × List String
  | [] => ([], [])
  | c :: rest =>
    let cs := cleanCitation c
    if cs = "" then angleCitationLoop sectionMap rest
    else
      match findSectionForCitation (some cs) sectionMap with
      | some hit =>
        let (l, u) := angleCitationLoop sectionMap rest
        (⟨cs, hit.sectionName, hit.sectionText⟩ :: l, u)
      | none =>
        let (l, u) := angleCitationLoop sectionMap rest
        (l, cs :: u)

/-- Model of `get_angle_citation_display_data`. -/
def getAngleCitationDisplayData (angle : Angle)
    (sectionMap : List (String × String)) : AngleDisplay :=
  let (linked, unlinked) := angleCitationLoop sectionMap angle.citations
  ⟨pyStrip angle.text, linked, unlinked⟩

example :
    getAngleCitationDisplayData ⟨"x", [some "EXCLUSIONS", some "NOPE"]⟩ [("EXCLUSIONS", "t")] =
      ⟨"x", [⟨"EXCLUSIONS", "EXCLUSIONS", "t"⟩], ["NOPE"]⟩ := by decide

example :
    buildSectionTextMap [("UNKNOWN", "preamble"), ("EXCLUSIONS", "text")] =
      [("EXCLUSIONS", "text")] := by decide

/-! ## Theorems -/

/-- Claim C3: `find_section_for_citation(None, m)` and
`find_section_for_citation("", m)` return absent for every section map
`m`, and `find_section_for_citation(c, {})` returns absent for every
citation `c`.  (The embedding is a total function, so no exception can be
raised on these inputs.) -/
theorem findSectionForCitation_null_empty_guards :
    (∀ m : List (String × String), findSectionForCitation none m = none) ∧
    (∀ m : List (String × String), findSectionForCitation (some "") m = none) ∧
    (∀ c : Option String, findSectionForCitation c [] = none) := by
  refine ⟨fun m => rfl, fun m => rfl, fun c => ?_⟩
  cases c with
  | none => rfl
  | some s => simp [findSectionForCitation]

/-- Claim C4: citation resolution is invariant under dash variants and
letter case: against `{"COVERAGE A - DWELLING": "dwelling text"}` the
hyphen, en-dash and em-dash citations all resolve to the same match, and
against `{"EXCLUSIONS": "text"}` the lowercase citation `"exclusions"`
matches, because citation and section keys are normalised identically. -/
theorem findSectionForCitation_dash_case_invariant :
    findSectionForCitation (some "COVERAGE A - DWELLING")
        [("COVERAGE A - DWELLING", "dwelling text")] =
      some ⟨"COVERAGE A - DWELLING", "dwelling text"⟩ ∧
    findSectionForCitation (some "COVERAGE A – DWELLING")
        [("COVERAGE A - DWELLING", "dwelling text")] =
      some ⟨"COVERAGE A - DWELLING", "dwelling text"⟩ ∧
    findSectionForCitation (some "COVERAGE A — DWELLING")
        [("COVERAGE A - DWELLING", "dwelling text")] =
      some ⟨"COVERAGE A - DWELLING", "dwelling text"⟩ ∧
    findSectionForCitation (some "exclusions") [("EXCLUSIONS", "text")] =
      some ⟨"EXCLUSIONS", "text"⟩ := by
  decide

/-- Inserting with a fresh key via `dictInsert` appends the binding at the end. -/
theorem dictInsert_of_fresh (l : List (String × String)) (k v : String)
    (h : ∀ p ∈ l, p.1 ≠ k) : dictInsert l k v = l ++ [(k, v)] := by
  induction l with
  | nil => rfl
  | cons q rest ih =>
    have hq : q.1 ≠ k := h q (by simp)
    simp only [dictInsert, hq, if_false]
    rw [ih (fun p hp => h p (by simp [hp]))]
    simp

/-- The `build_section_text_map` loop over keys disjoint from the
accumulator copies exactly the non-excluded entries, in order. -/
theorem buildSectionTextMap_loop (raw : List (String × String)) :
    ∀ acc : List (String × String),
      (raw.map Prod.fst).Nodup →
      (∀ p ∈ acc, ∀ q ∈ raw, p.1 ≠ q.1) →
      raw.foldl (fun a p => if p.1 ∈ excludedSections then a else dictInsert a p.1 p.2) acc =
        acc ++ raw.filter (fun p => decide (p.1 ∉ excludedSections)) := by
  induction raw with
  | nil => intro acc _ _; simp
  | cons q rest ih =>
    intro acc hnd hdisj
    have hnd' : (rest.map Prod.fst).Nodup := by
      simpa using hnd.of_cons
    by_cases hq : q.1 ∈ excludedSections
    · simp only [List.foldl_cons, if_pos hq]
      rw [ih acc hnd' (fun p hp r hr => hdisj p hp r (by simp [hr]))]
      simp [List.filter_cons, hq]
    · simp only [List.foldl_cons, if_neg hq]
      have hfresh : ∀ p ∈ acc, p.1 ≠ q.1 := fun p hp => hdisj p hp q (by simp)
      rw [dictInsert_of_fresh acc q.1 q.2 hfresh]
      have hnd2 : (q.1 :: rest.map Prod.fst).Nodup := by simpa using hnd
      have hqnotin : q.1 ∉ rest.map Prod.fst := (List.nodup_cons.mp hnd2).1
      have hdisj' : ∀ p ∈ acc ++ [(q.1, q.2)], ∀ r ∈ rest, p.1 ≠ r.1 := by
        intro p hp r hr
        rcases List.mem_append.mp hp with hpa | hpq
        · exact hdisj p hpa r (by simp [hr])
        · have : p = (q.1, q.2) := by simpa using hpq
          subst this
          intro hcontra
          exact hqnotin (hcontra ▸ List.mem_map_of_mem Prod.fst hr)
      rw [ih (acc ++ [(q.1, q.2)]) hnd' hdisj']
      simp [List.filter_cons, hq]

/-- Claim C6: `build_section_text_map` excludes the key `"UNKNOWN"` and
includes every other key of its input with its text unchanged — for a
section map with unique keys it equals the input filtered to the
non-excluded entries. -/
theorem buildSectionTextMap_filters_unknown (raw : List (String × String))
    (hnd : (raw.map Prod.fst).Nodup) :
    buildSectionTextMap raw = raw.filter (fun p => decide (p.1 ∉ excludedSections)) := by
  unfold buildSectionTextMap
  by_cases hraw : raw = []
  · subst hraw; simp
  · rw [if_neg hraw]
    simpa using buildSectionTextMap_loop raw [] hnd (by simp)

/-- Witness for C6, at the map from the claim:
`{"UNKNOWN": "preamble", "EXCLUSIONS": "text"}` keeps exactly
`"EXCLUSIONS" ↦ "text"`. -/
theorem buildSectionTextMap_filters_unknown_witness :
    buildSectionTextMap [("UNKNOWN", "preamble"), ("EXCLUSIONS", "text")] =
      [("EXCLUSIONS", "text")] := by
  have h := buildSectionTextMap_filters_unknown
    [("UNKNOWN", "preamble"), ("EXCLUSIONS", "text")] (by decide)
  exact h.trans (by decide)

/-- The sequential guard chain of `_looks_like_heading` on a stripped
line agrees with the conjunction of its rules: structural prefix or
(length in `[5, 90]`, no lowercase, no period, all-caps shape, at most 12
words). -/
theorem headingGate_iff (s : String) :
    headingGate s = true ↔
      ((sectionGroups s).isSome = true ∨ (coverageGroups s).isSome = true ∨
        (5 ≤ s.length ∧ s.length ≤ 90 ∧
          s.toList.any isLowerAZ = false ∧
          strContains s "." = false ∧
          allCapsHeading s.toList = true ∧
          countWords s ≤ 12)) := by
  unfold headingGate
  split_ifs with h1 h2 h3 h4 h5 h6 h7 h8
  · subst h1; decide
  · simp only [true_iff]
    have h2' : (sectionGroups s).isSome = true ∨ (coverageGroups s).isSome = true := by
      simpa using h2
    rcases h2' with hs | hc
    · exact Or.inl hs
    · exact Or.inr (Or.inl hc)
  · simp only [Bool.false_eq_true, false_iff]
    rintro (h | h | ⟨hlen, _⟩)
    · simp_all
    · simp_all
    · omega
  · simp only [Bool.false_eq_true, false_iff]
    rintro (h | h | ⟨_, hlen, _⟩)
    · simp_all
    · simp_all
    · omega
  · simp only [Bool.false_eq_true, false_iff]
    rintro (h | h | ⟨_, _, hlow, _⟩)
    · simp_all
    · simp_all
    · rw [h5] at hlow; exact absurd hlow (by decide)
  · simp only [Bool.false_eq_true, false_iff]
    rintro (h | h | ⟨_, _, _, hper, _⟩)
    · simp_all
    · simp_all
    · rw [h6] at hper; exact absurd hper (by decide)
  · simp only [Bool.false_eq_true, false_iff]
    rintro (h | h | ⟨_, _, _, _, hac, _⟩)
    · simp_all
    · simp_all
    · rw [hac] at h7; exact absurd h7 (by decide)
  · simp only [Bool.false_eq_true, false_iff]
    rintro (h | h | ⟨_, _, _, _, _, hw⟩)
    · simp_all
    · simp_all
    · omega
  · simp only [true_iff]
    refine Or.inr (Or.inr ⟨by omega, by omega, by simpa using h5, by simpa using h6,
      by simpa using h7, by omega⟩)

/-- Claim C5: the heading classifier accepts a line iff (after stripping)
it matches the `SECTION <roman>` or `COVERAGE <letter>` structural prefix
(regardless of the remaining rules), or else every remaining rule holds:
stripped length in `[5, 90]`, no ASCII lowercase letter, no period, the
all-caps heading shape, and at most 12 whitespace-split words. -/
theorem looksLikeHeading_rules (line : String) :
    looksLikeHeading line = true ↔
      ((sectionGroups (pyStrip line)).isSome = true ∨
        (coverageGroups (pyStrip line)).isSome = true ∨
        (5 ≤ (pyStrip line).length ∧ (pyStrip line).length ≤ 90 ∧
          (pyStrip line).toList.any isLowerAZ = false ∧
          strContains (pyStrip line) "." = false ∧
          allCapsHeading (pyStrip line).toList = true ∧
          countWords (pyStrip line) ≤ 12)) :=
  headingGate_iff (pyStrip line)

/-- The citation loop resolves each cleaned non-empty citation
independently and partitions hits and misses, preserving order. -/
theorem angleCitationLoop_eq (m : List (String × String)) (cs : List (Option String)) :
    angleCitationLoop m cs =
      (((cs.map cleanCitation).filter (fun s => !(s == ""))).filterMap
          (fun s => (findSectionForCitation (some s) m).map
            (fun hit => ⟨s, hit.sectionName, hit.sectionText⟩)),
        ((cs.map cleanCitation).filter (fun s => !(s == ""))).filter
          (fun s => (findSectionForCitation (some s) m).isNone)) := by
  induction cs with
  | nil => rfl
  | cons c rest ih =>
    by_cases hs : cleanCitation c = ""
    · simp [angleCitationLoop, hs, ih]
    · cases hf : findSectionForCitation (some (cleanCitation c)) m with
      | none => simp [angleCitationLoop, hs, hf, ih]
      | some hit => simp [angleCitationLoop, hs, hf, ih]

/-- Claim C8: `get_angle_citation_display_data` resolves each citation
independently and partitions them: `linked_citations` is the ordered list
of `{citation_text, section_name, section_text}` records for the
citations that resolved, `unlinked_citations` is the ordered list of the
(cleaned) citation strings that did not, and empty or whitespace-only
entries appear in neither list. -/
theorem getAngleCitationDisplayData_partition (angle : Angle) (m : List (String × String)) :
    getAngleCitationDisplayData angle m =
      ⟨pyStrip angle.text,
        ((angle.citations.map cleanCitation).filter (fun s => !(s == ""))).filterMap
          (fun s => (findSectionForCitation (some s) m).map
            (fun hit => ⟨s, hit.sectionName, hit.sectionText⟩)),
        ((angle.citations.map cleanCitation).filter (fun s => !(s == ""))).filter
          (fun s => (findSectionForCitation (some s) m).isNone)⟩ := by
  simp [getAngleCitationDisplayData, angleCitationLoop_eq]

/-! ## The resolver's match ladder, rung by rung -/

/-- Ladder rung 1: exact match of the normalised citation against a
normalised section key. -/
def exactRung (nc : String) (m : List (String × String)) : Option SectionHit :=
  (assocLookup (buildNormalizedMap m) nc).map
    (fun originalName => ⟨originalName, assocLookupD m originalName⟩)

/-- Ladder rung 2: first normalised key that starts with the normalised
citation. -/
def keyStartsRung (nc : String) (m : List (String × String)) : Option SectionHit :=
  ((buildNormalizedMap m).find? (fun p => strStartsWith p.1 nc)).map
    (fun p => ⟨p.2, assocLookupD m p.2⟩)

/-- Ladder rung 3: first normalised key that contains the normalised
citation as a substring. -/
def keyContainsRung (nc : String) (m : List (String × String)) : Option SectionHit :=
  ((buildNormalizedMap m).find? (fun p => strContains p.1 nc)).map
    (fun p => ⟨p.2, assocLookupD m p.2⟩)

/-- Ladder rung 4: if the citation matches `SECTION <roman>[ - ]<rest>`,
the uppercased `<rest>` is retried against the normalised keys (substring
or equality, which subsumes the prefix case). -/
def structuralRung (nc : String) (m : List (String × String)) : Option SectionHit :=
  match sectionCitationRest nc with
  | none => none
  | some g1 =>
    let extracted := pyUpper (pyStrip g1)
    if extracted = "" then none
    else
      ((buildNormalizedMap m).find? (fun p => strContains p.1 extracted || p.1 = extracted)).map
        (fun p => ⟨p.2, assocLookupD m p.2⟩)

/-- First-hit-wins combination of two ladder rungs. -/
def firstHit (a b : Option SectionHit) : Option SectionHit :=
  match a with
  | some r => some r
  | none => b

/-- Claim C2: `find_section_for_citation` evaluates its match ladder
strictly in the order exact, prefix, substring, structural extraction,
and returns the first hit — a match found at an earlier rung is returned
even when a later rung would match a different key. -/
theorem findSectionForCitation_ladder (c : String) (m : List (String × String))
    (h : normalizeKey c ≠ "") :
    findSectionForCitation (some c) m =
      firstHit (exactRung (normalizeKey c) m)
        (firstHit (keyStartsRung (normalizeKey c) m)
          (firstHit (keyContainsRung (normalizeKey c) m)
            (structuralRung (normalizeKey c) m))) := by
  have hc : c ≠ "" := fun hc0 => h (by simp [hc0, normalizeKey])
  by_cases hm : m = []
  · subst hm
    simp [findSectionForCitation, hc, exactRung, keyStartsRung, keyContainsRung,
      structuralRung, buildNormalizedMap, assocLookup, firstHit]
    cases sectionCitationRest (normalizeKey c) <;> simp
  · cases h1 : assocLookup (buildNormalizedMap m) (normalizeKey c) with
    | some originalName =>
      simp [findSectionForCitation, hc, hm, h, h1, exactRung, firstHit]
    | none =>
      cases h2 : (buildNormalizedMap m).find? (fun p => strStartsWith p.1 (normalizeKey c)) with
      | some p =>
        simp [findSectionForCitation, hc, hm, h, h1, h2, exactRung, keyStartsRung, firstHit]
      | none =>
        cases h3 : (buildNormalizedMap m).find? (fun p => strContains p.1 (normalizeKey c)) with
        | some p =>
          simp [findSectionForCitation, hc, hm, h, h1, h2, h3, exactRung, keyStartsRung,
            keyContainsRung, firstHit]
        | none =>
          cases h4 : sectionCitationRest (normalizeKey c) with
          | none =>
            simp [findSectionForCitation, hc, hm, h, h1, h2, h3, h4, exactRung, keyStartsRung,
              keyContainsRung, structuralRung, firstHit]
          | some g1 =>
            simp only [findSectionForCitation, hc, hm, h, h1, h2, h3, h4, exactRung,
              keyStartsRung, keyContainsRung, structuralRung, firstHit, Option.map,
              if_neg, if_false]
            by_cases h5 : pyUpper (pyStrip g1) = ""
            · simp [h5]
            · simp only [if_neg h5]
              cases (buildNormalizedMap m).find?
                  (fun p =>
                    strContains p.1 (pyUpper (pyStrip g1)) ||
                      decide (p.1 = pyUpper (pyStrip g1))) <;>
                simp

/-- Witness for C2: against `{"COVERAGE A - DWELLING": "d"}` the
citation `"COVERAGE"` misses rung 1 and is returned by rung 2. -/
theorem findSectionForCitation_ladder_witness :
    findSectionForCitation (some "COVERAGE") [("COVERAGE A - DWELLING", "d")] =
      some ⟨"COVERAGE A - DWELLING", "d"⟩ := by
  have h := findSectionForCitation_ladder "COVERAGE" [("COVERAGE A - DWELLING", "d")] (by decide)
  exact h.trans (by decide)

/-! ## Well-formedness and collision behaviour of the normalised map -/

/-- Keys of `dictInsert`: unchanged if present, appended if fresh. -/
theorem dictInsert_keys (acc : List (String × String)) (k v : String) :
    (dictInsert acc k v).map Prod.fst =
      if k ∈ acc.map Prod.fst then acc.map Prod.fst else acc.map Prod.fst ++ [k] := by
  induction acc with
  | nil => simp [dictInsert]
  | cons q rest ih =>
    by_cases hq : q.1 = k
    · simp [dictInsert, hq]
    · simp only [dictInsert, if_neg hq, List.map_cons, ih]
      by_cases hk : k ∈ rest.map Prod.fst
      · simp [hk, Ne.symm hq]
      · simp [hk, Ne.symm hq]

/-- The operation `dictInsert` preserves key uniqueness. -/
theorem dictInsert_nodup (acc : List (String × String)) (k v : String)
    (h : (acc.map Prod.fst).Nodup) : ((dictInsert acc k v).map Prod.fst).Nodup := by
  rw [dictInsert_keys]
  by_cases hk : k ∈ acc.map Prod.fst
  · simpa [hk] using h
  · simp only [if_neg hk]
    exact List.Nodup.append h (List.nodup_singleton k) (by simpa using hk)

/-- Membership in `dictInsert`: the new binding, or an old binding at a
different key (keys assumed unique, as the builders keep them). -/
theorem mem_dictInsert (acc : List (String × String)) (k v0 n v : String)
    (hnd : (acc.map Prod.fst).Nodup) (h : (n, v) ∈ dictInsert acc k v0) :
    (n = k ∧ v = v0) ∨ ((n, v) ∈ acc ∧ n ≠ k) := by
  induction acc with
  | nil =>
    left
    simpa [dictInsert] using h
  | cons q rest ih =>
    have hq_notin : q.1 ∉ rest.map Prod.fst := (List.nodup_cons.mp (by simpa using hnd)).1
    have hnd' : (rest.map Prod.fst).Nodup := (List.nodup_cons.mp (by simpa using hnd)).2
    by_cases hq : q.1 = k
    · rw [dictInsert, if_pos hq] at h
      rcases List.mem_cons.mp h with heq | hmem
      · left
        have h1 : n = q.1 := congrArg Prod.fst heq
        have h2 : v = v0 := congrArg Prod.snd heq
        exact ⟨h1.trans hq, h2⟩
      · right
        refine ⟨List.mem_cons_of_mem q hmem, ?_⟩
        intro hcontra
        apply hq_notin
        rw [hq, ← hcontra]
        exact List.mem_map_of_mem Prod.fst hmem
    · rw [dictInsert, if_neg hq] at h
      rcases List.mem_cons.mp h with heq | hmem
      · right
        have h1 : n = q.1 := congrArg Prod.fst heq
        refine ⟨by rw [heq]; exact List.mem_cons_self q rest, by rw [h1]; exact hq⟩
      · rcases ih hnd' hmem with hleft | ⟨hold, hne⟩
        · exact Or.inl hleft
        · exact Or.inr ⟨List.mem_cons_of_mem q hold, hne⟩

/-- The loop invariant of `buildNormalizedMap`: every binding `(n, v)` of
the accumulated table satisfies `n = normalizeKey v`, and `v` is the last
key seen so far whose normalisation is `n`. -/
theorem buildNormalizedMap_loop_inv (m : List (String × String)) :
    ∀ (acc : List (String × String)) (seen : List String),
      (acc.map Prod.fst).Nodup →
      (∀ n v, (n, v) ∈ acc →
        n = normalizeKey v ∧
          (seen.filter (fun k => normalizeKey k == n)).getLast? = some v) →
      ∀ n v,
        (n, v) ∈ m.foldl (fun a p => dictInsert a (normalizeKey p.1) p.1) acc →
        n = normalizeKey v ∧
          (((seen ++ m.map Prod.fst).filter (fun k => normalizeKey k == n)).getLast? = some v) := by
  induction m with
  | nil =>
    intro acc seen _ hinv n v h
    simpa using hinv n v h
  | cons p rest ih =>
    intro acc seen hnd hinv n v h
    rw [List.foldl_cons] at h
    have hnd' : ((dictInsert acc (normalizeKey p.1) p.1).map Prod.fst).Nodup :=
      dictInsert_nodup acc _ _ hnd
    have hinv' : ∀ n v, (n, v) ∈ dictInsert acc (normalizeKey p.1) p.1 →
        n = normalizeKey v ∧
          ((seen ++ [p.1]).filter (fun k => normalizeKey k == n)).getLast? = some v := by
      intro n' v' h'
      rcases mem_dictInsert acc (normalizeKey p.1) p.1 n' v' hnd h' with ⟨hn, hv⟩ | ⟨hold, hne⟩
      · subst hv
        refine ⟨hn, ?_⟩
        rw [List.filter_append]
        have : [p.1].filter (fun k => normalizeKey k == n') = [p.1] := by
          simp [hn]
        rw [this, List.getLast?_concat]
      · obtain ⟨hn, hlast⟩ := hinv n' v' hold
        refine ⟨hn, ?_⟩
        rw [List.filter_append]
        have : [p.1].filter (fun k => normalizeKey k == n') = [] := by
          simp [Ne.symm hne]
        rw [this, List.append_nil, hlast]
    have := ih (dictInsert acc (normalizeKey p.1) p.1) (seen ++ [p.1]) hnd' hinv' n v h
    simpa [List.append_assoc] using this

/-- Every binding `(n, v)` of the resolver's normalised lookup table
satisfies: `n` is `v`'s normalisation, and `v` is the *last* key of the
section map whose normalisation is `n` (Python dict overwrite-on-collision). -/
theorem buildNormalizedMap_last (m : List (String × String)) (n v : String)
    (h : (n, v) ∈ buildNormalizedMap m) :
    n = normalizeKey v ∧
      ((m.map Prod.fst).filter (fun k => normalizeKey k == n)).getLast? = some v := by
  have := buildNormalizedMap_loop_inv m [] [] (by simp) (by simp) n v h
  simpa using this

/-- Whenever the resolver returns a hit, that hit's name was produced by
some binding of the normalised lookup table, and the hit's text is the
section map's text for that name. -/
theorem findSectionForCitation_from_normMap (c : Option String)
    (m : List (String × String)) (hit : SectionHit)
    (h : findSectionForCitation c m = some hit) :
    (∃ n, (n, hit.sectionName) ∈ buildNormalizedMap m) ∧
      hit.sectionText = assocLookupD m hit.sectionName := by
  match c with
  | none => simp [findSectionForCitation] at h
  | some c =>
    by_cases hc : c = ""
    · rw [hc] at h; simp [findSectionForCitation] at h
    by_cases hm : m = []
    · subst hm; simp [findSectionForCitation, hc] at h
    by_cases hnc : normalizeKey c = ""
    · simp [findSectionForCitation, hc, hm, hnc] at h
    cases h1 : assocLookup (buildNormalizedMap m) (normalizeKey c) with
    | some originalName =>
      simp only [findSectionForCitation, if_neg hc, if_neg hm, if_neg hnc, h1] at h
      obtain ⟨q, hqf, hq2⟩ := Option.map_eq_some'.mp (show
        ((buildNormalizedMap m).find? (fun p => p.1 = normalizeKey c)).map Prod.snd =
          some originalName from h1)
      have hqmem := List.mem_of_find?_eq_some hqf
      rw [Option.some_inj] at h
      subst h
      exact ⟨⟨q.1, by rw [← hq2]; simpa using hqmem⟩, rfl⟩
    | none =>
      cases h2 : (buildNormalizedMap m).find? (fun p => strStartsWith p.1 (normalizeKey c)) with
      | some p =>
        simp only [findSectionForCitation, if_neg hc, if_neg hm, if_neg hnc, h1, h2] at h
        rw [Option.some_inj] at h
        subst h
        exact ⟨⟨p.1, by simpa using List.mem_of_find?_eq_some h2⟩, rfl⟩
      | none =>
        cases h3 : (buildNormalizedMap m).find? (fun p => strContains p.1 (normalizeKey c)) with
        | some p =>
          simp only [findSectionForCitation, if_neg hc, if_neg hm, if_neg hnc, h1, h2, h3] at h
          rw [Option.some_inj] at h
          subst h
          exact ⟨⟨p.1, by simpa using List.mem_of_find?_eq_some h3⟩, rfl⟩
        | none =>
          cases h4 : sectionCitationRest (normalizeKey c) with
          | none =>
            simp [findSectionForCitation, hc, hm, hnc, h1, h2, h3, h4] at h
          | some g1 =>
            by_cases h5 : pyUpper (pyStrip g1) = ""
            · simp [findSectionForCitation, hc, hm, hnc, h1, h2, h3, h4, h5] at h
            · cases h6 : (buildNormalizedMap m).find?
                  (fun p =>
                    strContains p.1 (pyUpper (pyStrip g1)) ||
                      decide (p.1 = pyUpper (pyStrip g1))) with
              | some p =>
                simp only [findSectionForCitation, if_neg hc, if_neg hm, if_neg hnc,
                  h1, h2, h3, h4, if_neg h5, h6] at h
                rw [Option.some_inj] at h
                subst h
                exact ⟨⟨p.1, by simpa using List.mem_of_find?_eq_some h6⟩, rfl⟩
              | none =>
                simp [findSectionForCitation, hc, hm, hnc, h1, h2, h3, h4, h5, h6] at h

/-- Claim C9: when two distinct section-map keys normalise to the same
string, only the key appearing later in the map's iteration order is
reachable as a result, at every rung of the ladder: any returned hit's
name is the *last* key of the map whose normalisation equals the hit
name's normalisation. -/
theorem findSectionForCitation_last_key_wins (c : Option String)
    (m : List (String × String)) (hit : SectionHit)
    (h : findSectionForCitation c m = some hit) :
    ((m.map Prod.fst).filter
        (fun k => normalizeKey k == normalizeKey hit.sectionName)).getLast? =
      some hit.sectionName := by
  obtain ⟨⟨n, hn⟩, -⟩ := findSectionForCitation_from_normMap c m hit h
  obtain ⟨heq, hlast⟩ := buildNormalizedMap_last m n hit.sectionName hn
  rw [heq] at hlast
  exact hlast

/-- Witness for C9: with colliding keys `"Exclusions"` and
`"EXCLUSIONS"`, resolving `"exclusions"` returns the later key (and its
text `"t2"`), and that key is the last one with its normalised form. -/
theorem findSectionForCitation_last_key_wins_witness :
    (([("Exclusions", "t1"), ("EXCLUSIONS", "t2")].map Prod.fst).filter
        (fun k => normalizeKey k == normalizeKey "EXCLUSIONS")).getLast? =
      some "EXCLUSIONS" :=
  findSectionForCitation_last_key_wins (some "exclusions")
    [("Exclusions", "t1"), ("EXCLUSIONS", "t2")] ⟨"EXCLUSIONS", "t2"⟩ (by decide)

/-- Claim C10: every returned match is well-formed with respect to the
input map — `section_name` is one of the map's keys and `section_text` is
exactly the map's text for that key. -/
theorem findSectionForCitation_wellformed (c : Option String)
    (m : List (String × String)) (hit : SectionHit)
    (h : findSectionForCitation c m = some hit) :
    hit.sectionName ∈ m.map Prod.fst ∧
      hit.sectionText = assocLookupD m hit.sectionName := by
  obtain ⟨⟨n, hn⟩, htext⟩ := findSectionForCitation_from_normMap c m hit h
  obtain ⟨-, hlast⟩ := buildNormalizedMap_last m n hit.sectionName hn
  exact ⟨List.mem_of_mem_filter (List.mem_of_getLast?_eq_some hlast), htext⟩

/-- Witness for C10: the structural-rung match of
`"Section I - Exclusions"` lands on the real key `"EXCLUSIONS"` with its
exact text. -/
theorem findSectionForCitation_wellformed_witness :
    "EXCLUSIONS" ∈ [("EXCLUSIONS", "ex"), ("CONDITIONS", "co")].map Prod.fst ∧
      "ex" = assocLookupD [("EXCLUSIONS", "ex"), ("CONDITIONS", "co")] "EXCLUSIONS" :=
  findSectionForCitation_wellformed (some "Section I - Exclusions")
    [("EXCLUSIONS", "ex"), ("CONDITIONS", "co")] ⟨"EXCLUSIONS", "ex"⟩ (by decide)

/-! ## Conservation of body lines during the section scan -/

/-- The operation `bufAppend` never changes the set or order of buffer keys. -/
theorem bufAppend_keys (a : List (String × List String)) (k l : String) :
    (bufAppend a k l).map Prod.fst = a.map Prod.fst := by
  induction a with
  | nil => rfl
  | cons q rest ih =>
    by_cases hq : q.1 = k
    · simp [bufAppend, hq]
    · simp [bufAppend, hq, ih]

/-- Appending a line to an existing buffer adds exactly that line to the
multiset of buffered lines. -/
theorem bufAppend_join (a : List (String × List String)) (k l : String)
    (h : k ∈ a.map Prod.fst) :
    List.Perm ((bufAppend a k l).map Prod.snd).flatten ((a.map Prod.snd).flatten ++ [l]) := by
  induction a with
  | nil => simp at h
  | cons q rest ih =>
    by_cases hq : q.1 = k
    · simp only [bufAppend, if_pos hq, List.map_cons, List.flatten_cons]
      rw [List.append_assoc, List.append_assoc]
      exact List.Perm.append_left q.2 List.perm_append_comm
    · have hk : k ∈ rest.map Prod.fst := by
        rw [List.map_cons] at h
        rcases List.mem_cons.mp h with h1 | h1
        · exact absurd h1.symm hq
        · exact h1
      simp only [bufAppend, if_neg hq, List.map_cons, List.flatten_cons]
      rw [List.append_assoc]
      exact List.Perm.append_left q.2 (ih hk)

/-- A heading step keeps the multiset of buffered lines unchanged and
leaves the new current key present among the buffers. -/
theorem scanStep_heading (acc : List (String × List String)) (key l : String)
    (hl : looksLikeHeading l = true) :
    ((scanStep (acc, key) l).1.map Prod.snd).flatten = (acc.map Prod.snd).flatten ∧
      (scanStep (acc, key) l).2 ∈ (scanStep (acc, key) l).1.map Prod.fst := by
  unfold scanStep
  rw [if_pos hl]
  dsimp only
  generalize (if normalizeHeading l = "" then unknownSectionName else normalizeHeading l) = key2
  split_ifs with hmem
  · refine ⟨rfl, ?_⟩
    obtain ⟨p, hp⟩ := Option.isSome_iff_exists.mp hmem
    have hpmem := List.mem_of_find?_eq_some hp
    have hpk : p.1 = key2 := by
      simpa using List.find?_some hp
    rw [← hpk]
    exact List.mem_map_of_mem Prod.fst hpmem
  · refine ⟨by simp, by simp⟩

/-- A non-heading step appends the line to the current buffer. -/
theorem scanStep_body (acc : List (String × List String)) (key l : String)
    (hl : looksLikeHeading l = false) :
    scanStep (acc, key) l = (bufAppend acc key l, key) := by
  simp [scanStep, hl]

/-- Invariant of the whole scan: as long as the current key has a buffer,
the lines collected across all buffers are exactly the non-heading lines
processed so far (up to buffer grouping). -/
theorem scan_join (lines : List String) :
    ∀ (acc : List (String × List String)) (key : String),
      key ∈ acc.map Prod.fst →
      List.Perm (((lines.foldl scanStep (acc, key)).1.map Prod.snd).flatten)
        ((acc.map Prod.snd).flatten ++ lines.filter (fun l => !looksLikeHeading l)) := by
  induction lines with
  | nil => intro acc key _; simp
  | cons l rest ih =>
    intro acc key hkey
    rw [List.foldl_cons]
    by_cases hl : looksLikeHeading l
    · obtain ⟨hjoin, hmem2⟩ := scanStep_heading acc key l (by simpa using hl)
      have hIH := ih (scanStep (acc, key) l).1 (scanStep (acc, key) l).2 hmem2
      have hfilter : (l :: rest).filter (fun x => !looksLikeHeading x) =
          rest.filter (fun x => !looksLikeHeading x) := by
        simp [List.filter_cons, hl]
      rw [hfilter]
      rw [hjoin] at hIH
      exact hIH
    · have hl' : looksLikeHeading l = false := by simpa using hl
      rw [scanStep_body acc key l hl']
      have hkey' : key ∈ (bufAppend acc key l).map Prod.fst := by
        rw [bufAppend_keys]; exact hkey
      have hIH := ih (bufAppend acc key l) key hkey'
      have hperm := (bufAppend_join acc key l hkey).append_right
        (rest.filter (fun x => !looksLikeHeading x))
      have hfilter : (l :: rest).filter (fun x => !looksLikeHeading x) =
          l :: rest.filter (fun x => !looksLikeHeading x) := by
        simp [List.filter_cons, hl']
      rw [hfilter]
      have hgoal : (acc.map Prod.snd).flatten ++ (l :: rest.filter (fun x => !looksLikeHeading x)) =
          ((acc.map Prod.snd).flatten ++ [l]) ++ rest.filter (fun x => !looksLikeHeading x) := by
        rw [List.append_assoc]; rfl
      rw [hgoal]
      exact hIH.trans hperm

/-- Claim C1 (amended): the concatenation of all section buffers, in scan
order, is a permutation of the original line sequence minus the heading
lines — every non-heading line lands in exactly one buffer, so nothing is
lost or duplicated; but when a canonical key recurs the concatenation can
reorder lines relative to the document. -/
theorem sectionBuffers_concat_perm (text : String) :
    List.Perm (((sectionBuffers text).map Prod.snd).flatten)
      ((pySplitlines text).filter (fun l => !looksLikeHeading l)) := by
  have h := scan_join (pySplitlines text) [(unknownSectionName, [])] unknownSectionName
    (by simp)
  simpa [sectionBuffers, runScan] using h

/-- Counterexample to claim C1 as stated: when the canonical key
`EXCLUSIONS` recurs, its two bodies are accumulated in one buffer, so the
scan-order concatenation of the buffers is `["a", "c", "b"]`, not the
original non-heading sequence `["a", "b", "c"]`. -/
theorem sectionBuffers_concat_counterexample :
    ¬ (((sectionBuffers "EXCLUSIONS\na\nCONDITIONS\nb\nEXCLUSIONS\nc").map Prod.snd).flatten =
        (pySplitlines "EXCLUSIONS\na\nCONDITIONS\nb\nEXCLUSIONS\nc").filter
          (fun l => !looksLikeHeading l)) := by
  decide

/-! ## Degenerate documents (no detected headings) -/

/-- With no heading among the lines, the scan keeps everything in the
single `UNKNOWN` buffer, in order. -/
theorem scanNoHeading (lines : List String) :
    ∀ acc0 : List String,
      (∀ l ∈ lines, looksLikeHeading l = false) →
      lines.foldl scanStep ([(unknownSectionName, acc0)], unknownSectionName) =
        ([(unknownSectionName, acc0 ++ lines)], unknownSectionName) := by
  induction lines with
  | nil => intro acc0 _; simp
  | cons l rest ih =>
    intro acc0 hnh
    have hl : looksLikeHeading l = false := hnh l (by simp)
    rw [List.foldl_cons, scanStep_body _ _ _ hl]
    have hbuf : bufAppend [(unknownSectionName, acc0)] unknownSectionName l =
        [(unknownSectionName, acc0 ++ [l])] := by
      simp [bufAppend]
    rw [hbuf, ih (acc0 ++ [l]) (fun x hx => hnh x (by simp [hx]))]
    simp

/-- Claim C7: the sectioning engine has no reject path — for any document
in which no line is classified as a heading (in particular any empty or
whitespace-only document), everything collapses into the `UNKNOWN`
section, which is itself dropped when its trimmed body is empty, and a
SectionMap is always returned. -/
theorem splitIntoSections_no_heading (text : String)
    (h : ∀ l ∈ pySplitlines text, looksLikeHeading l = false) :
    splitIntoSections text =
      (if pyStrip (joinNL (pySplitlines text)) = "" then []
       else [(unknownSectionName, pyStrip (joinNL (pySplitlines text)))]) := by
  unfold splitIntoSections sectionBuffers runScan
  rw [scanNoHeading (pySplitlines text) [] h]
  simp only [List.nil_append]
  by_cases hb : pyStrip (joinNL (pySplitlines text)) = ""
  · simp [List.filterMap, hb]
  · simp [List.filterMap, hb]

/-- Witness for C7: a whitespace-only document yields the empty
SectionMap, and a heading-free document collapses into `UNKNOWN`. -/
theorem splitIntoSections_no_heading_witness :
    splitIntoSections "   \n\t " = [] ∧
      splitIntoSections "no heading lines here.\njust body text." =
        [("UNKNOWN", "no heading lines here.\njust body text.")] := by
  constructor
  · exact (splitIntoSections_no_heading "   \n\t " (by decide)).trans (by decide)
  · exact (splitIntoSections_no_heading "no heading lines here.\njust body text."
      (by decide)).trans (by decide)

end PolicyDispute
